import Mathlib

/-!
Verification of the k2 benchmark scheduler's core (manifest header file format,
manifest manager state machine, experiment run loop) against its specification.

The Rust sources are shallowly embedded as follows:
* `usize` values become `Nat` (the values reached by the claims stay far below
  2^64, and no arithmetic in the modelled code wraps before a `panic!` fires);
* file contents become `List Char` (the files are ASCII text);
* the on-disk state of the single header file becomes an explicit
  `Option (List Char)` value (`none` = the file does not exist) threaded
  through the operations;
* every function that can `panic!` / fail an `assert!` / `expect` returns an
  `Option`, with `none` marking the panic;
* `rand::thread_rng` is replaced by an arbitrary function `Nat → Nat`
  supplying the random draw used at each index of the Fisher-Yates shuffle
  that `rand`'s `SliceRandom::shuffle` performs;
* `util::num_digits` computes `floor(log10(value)) + 1` through `f64`
  arithmetic in Rust; it is modelled as the exact decimal digit count, with
  which the `f64` computation agrees on the magnitudes reachable here
  (both header fields are at most 8 decimal digits wide).
-/


/-! ### `util::num_digits` -/

/-- Fuel-driven decimal digit counter (`fuel ≥ v` makes it exact). -/
def numDigitsAux : Nat → Nat → Nat
  | 0, _ => 0
  | fuel + 1, v => if v = 0 then 0 else numDigitsAux fuel (v / 10) + 1

/-- `util::num_digits`: the number of decimal digits of `value`
(`1` for `0`, `floor(log10 value) + 1` otherwise). -/
def num_digits (value : Nat) : Nat :=
  if value = 0 then 1 else numDigitsAux value value

/-! ### Decimal rendering and parsing of field values -/

/-- Fuel-driven little-to-big-endian decimal renderer (the digits of `v` are
prepended to `acc`, most significant first once the recursion finishes). -/
def toCharsAux : Nat → Nat → List Char → List Char
  | 0, _, acc => acc
  | fuel + 1, v, acc =>
    if v = 0 then acc else toCharsAux fuel (v / 10) (Nat.digitChar (v % 10) :: acc)

/-- The decimal string of `v`, as Rust's `ToString for usize` produces it. -/
def natChars (v : Nat) : List Char :=
  if v = 0 then ['0'] else toCharsAux v v []

/-- `str::parse::<usize>` fails on a non-digit character. -/
def charDigit (c : Char) : Option Nat :=
  if '0' ≤ c ∧ c ≤ '9' then some (c.toNat - 48) else none

/-- The digit-accumulation loop of `str::parse::<usize>`. -/
def parseDigitsAux : List Char → Nat → Option Nat
  | [], acc => some acc
  | c :: cs, acc =>
    match charDigit c with
    | some d => parseDigitsAux cs (acc * 10 + d)
    | none => none

/-- `str::parse::<usize>`: rejects the empty string and any non-digit. -/
def parseNatChars (s : List Char) : Option Nat :=
  if s.isEmpty then none else parseDigitsAux s 0

/-! ### `manifest::format_int_field` -/

/-- The `num_reboots` field has a fixed width of 8 bytes. -/
def NUM_REBOOTS_BYTES : Nat := 8

/-- The `next_idx` field has a fixed width of 4 bytes. -/
def NEXT_IDX_BYTES : Nat := 4

/-- `manifest::format_int_field`: `value` zero-padded to exactly `width` bytes;
`none` models the `assert!(bytes <= width)` panic. -/
def format_int_field (value width : Nat) : Option (List Char) :=
  if num_digits value ≤ width then
    some (List.replicate (width - num_digits value) '0' ++ natChars value)
  else none

/-! ### `manifest.rs` data model -/

/-- `manifest::JobStatus`. -/
inductive JobStatus where
  | Outstanding
  | Done
  | Error
deriving DecidableEq

/-- `manifest::ManifestHeader` (the `hdr_path` field is dropped: the single
header file's contents are threaded explicitly as a `List Char`). -/
structure ManifestHeader where
  num_reboots : Nat
  num_reboots_offset : Nat
  next_idx : Nat
  next_idx_offset : Nat
  ordering : List Nat
deriving DecidableEq

/-- The `num_reboots` key of the manifest header. -/
def NUM_REBOOTS : List Char := "num_reboots".data

/-- The `next_idx` key of the manifest header. -/
def NEXT_IDX : List Char := "next_idx".data

/-- The `ordering` key of the manifest header. -/
def ORDERING : List Char := "ordering".data

/-! ### `ManifestHeader::parse` -/

/-- The mutable loop state of `ManifestHeader::parse`: the three optional
fields collected so far plus the byte offset of the current line. -/
structure ParseState where
  num_reboots : Option (Nat × Nat)
  next_idx : Option (Nat × Nat)
  ordering : Option (List Nat)
  offset : Nat
deriving DecidableEq

def initParseState : ParseState := ⟨none, none, none, 0⟩

/-- `value.split(',').map(|x| x.parse::<usize>().unwrap()).collect()`:
`none` models the `unwrap` panic on an unparsable component. -/
def parseOrderingValue : List (List Char) → Option (List Nat)
  | [] => some []
  | s :: rest =>
    match parseNatChars s, parseOrderingValue rest with
    | some v, some vs => some (v :: vs)
    | _, _ => none

/-- One iteration of the line loop of `ManifestHeader::parse`: split the line
at `'='` into exactly one key-value pair (panic otherwise), dispatch on the
key, record the value and its byte offset, enforce the fixed field width, and
advance the line offset past the newline. -/
def parseLine (st : ParseState) (line : List Char) : Option ParseState :=
  match line.splitOn '=' with
  | [key, value] =>
    if key = ORDERING then
      match parseOrderingValue (value.splitOn ',') with
      | some ord =>
        some { st with ordering := some ord, offset := st.offset + line.length + 1 }
      | none => none
    else
      match parseNatChars value with
      | none => none
      | some v =>
        let val_offset := st.offset + key.length + 1
        if key = NUM_REBOOTS then
          if value.length = NUM_REBOOTS_BYTES then
            some { st with num_reboots := some (v, val_offset),
                           offset := st.offset + line.length + 1 }
          else none
        else if key = NEXT_IDX then
          if value.length = NEXT_IDX_BYTES then
            some { st with next_idx := some (v, val_offset),
                           offset := st.offset + line.length + 1 }
          else none
        else none
  | _ => none

/-- `ManifestHeader::parse`: split the file into lines, run the line loop,
and require all three fields to have been set. -/
def ManifestHeader.parse (file : List Char) : Option ManifestHeader :=
  match List.foldlM parseLine initParseState (file.splitOn '\n') with
  | none => none
  | some st =>
    match st.num_reboots, st.next_idx, st.ordering with
    | some (nr, nro), some (ni, nio), some ord => some ⟨nr, nro, ni, nio, ord⟩
    | _, _, _ => none

/-! ### `ManifestHeader::write` / `sync` / `random_ordering` / `new` -/

/-- `ManifestHeader::ordering_str`: the comma-joined decimal rendering. -/
def ManifestHeader.ordering_str (ordering : List Nat) : List Char :=
  List.intercalate [','] (ordering.map natChars)

/-- The file contents assembled by `ManifestHeader::write`
(`"num_reboots=<8>\nnext_idx=<4>\nordering=<csv>"`); `none` models the
`format_int_field` width panic. -/
def manifestFileContents (num_reboots next_idx : Nat) (ordering : List Nat) :
    Option (List Char) :=
  match format_int_field num_reboots NUM_REBOOTS_BYTES,
        format_int_field next_idx NEXT_IDX_BYTES with
  | some nr, some ni =>
    some (NUM_REBOOTS ++ '=' :: (nr ++ '\n' ::
         (NEXT_IDX ++ '=' :: (ni ++ '\n' ::
         (ORDERING ++ '=' :: ManifestHeader.ordering_str ordering)))))
  | _, _ => none

/-- `ManifestHeader::write`: creates the file only when it does not exist.
Result: `none` = panic, `some disk` = the disk state afterwards. -/
def ManifestHeader.write (h : ManifestHeader) (disk : Option (List Char)) :
    Option (Option (List Char)) :=
  match disk with
  | some f => some (some f)
  | none =>
    match manifestFileContents h.num_reboots h.next_idx h.ordering with
    | some contents => some (some contents)
    | none => none

/-- In-place file patch: `seek(SeekFrom::Start(off))` followed by
`write(data)` overwrites `data.length` bytes starting at byte `off`. -/
def writeAt (f : List Char) (off : Nat) (data : List Char) : List Char :=
  f.take off ++ data ++ f.drop (off + data.length)

/-- `ManifestHeader::sync`: re-format the two mutable fields and patch them
in place at their recorded offsets; `none` models the width panic. -/
def ManifestHeader.sync (h : ManifestHeader) (file : List Char) :
    Option (List Char) :=
  match format_int_field h.num_reboots NUM_REBOOTS_BYTES,
        format_int_field h.next_idx NEXT_IDX_BYTES with
  | some nr, some ni =>
    some (writeAt (writeAt file h.num_reboots_offset nr) h.next_idx_offset ni)
  | _, _ => none

/-- Swap the elements at positions `i` and `j` (`slice::swap`). -/
def listSwap (l : List Nat) (i j : Nat) : List Nat :=
  match l[i]?, l[j]? with
  | some a, some b => (l.set i b).set j a
  | _, _ => l

/-- The Fisher-Yates downward loop of `rand`'s `SliceRandom::shuffle`:
positions `i, i-1, ..., 1` are each swapped with a random position `≤` it;
`rand i` supplies the raw random draw consumed at position `i`. -/
def shuffleAux (rand : Nat → Nat) : Nat → List Nat → List Nat
  | 0, l => l
  | i + 1, l => shuffleAux rand i (listSwap l (i + 1) (rand (i + 1) % (i + 2)))

/-- `SliceRandom::shuffle` on a list. -/
def shuffle (l : List Nat) (rand : Nat → Nat) : List Nat :=
  shuffleAux rand (l.length - 1) l

/-- `ManifestHeader::random_ordering`: a shuffled `(0..num_jobs).collect()`. -/
def ManifestHeader.random_ordering (num_jobs : Nat) (rand : Nat → Nat) : List Nat :=
  shuffle (List.range num_jobs) rand

/-- `ManifestHeader::new`: if no header file exists, materialize a blank
header (`num_reboots = 0`, `next_idx = 0`, fresh random ordering) and write
it; then (re-)parse the file to recover the field offsets. The first
component is the disk state afterwards (durable even if the parse panics),
the second is the parsed header (`none` = panic). -/
def ManifestHeader.new (disk : Option (List Char)) (num_jobs : Nat)
    (rand : Nat → Nat) : Option (List Char) × Option ManifestHeader :=
  match disk with
  | some f => (some f, ManifestHeader.parse f)
  | none =>
    match manifestFileContents 0 0 (ManifestHeader.random_ordering num_jobs rand) with
    | some contents => (some contents, ManifestHeader.parse contents)
    | none => (none, none)

/-! ### `db::K2Store` and `manifest::ManifestManager` -/

/-- The `job` table of `db::K2Store`, abstracted to its `job_id → status`
column (the `key` column plays no role in the claims under scrutiny). -/
def K2Store := Nat → Option JobStatus

/-- `K2Store::update_status`: `UPDATE job SET status = $1 WHERE job_id = $2`
changes exactly the (existing) row with the given id. -/
def K2Store.update_status (store : K2Store) (id : Nat) (status : JobStatus) :
    K2Store :=
  fun j => if j = id then (store j).map (fun _ => status) else store j

/-- `db::K2Store::create_job_table`: inserts one `Outstanding` row per job,
ids `0, 1, ..., pexecs * benchmark_count - 1` assigned sequentially
(`Job::new` sets every fresh status to `Outstanding`). -/
def K2Store.create_job_table (pexecs benchCount : Nat) : K2Store :=
  fun j => if j < pexecs * benchCount then some JobStatus.Outstanding else none

/-- `manifest::ManifestManager`. -/
structure ManifestManager where
  manifest_hdr : ManifestHeader
  cur_status : JobStatus
deriving DecidableEq

/-- `ManifestManager::next_job`: `ordering[next_idx]` when the cursor is in
range, `None` once the schedule is exhausted. -/
def ManifestManager.next_job (m : ManifestManager) : Option Nat :=
  if h : m.manifest_hdr.next_idx < m.manifest_hdr.ordering.length then
    some (m.manifest_hdr.ordering.get ⟨m.manifest_hdr.next_idx, h⟩)
  else
    none

/-- `ManifestManager::update_status`: record the status; on a terminal status
(`Done`/`Error`) advance `next_idx` and assert (fatally) that the new value
still fits `NEXT_IDX_BYTES` decimal digits. -/
def ManifestManager.update_status (m : ManifestManager) (status : JobStatus) :
    Option ManifestManager :=
  let m := { m with cur_status := status }
  match status with
  | JobStatus.Done | JobStatus.Error =>
    let ni := m.manifest_hdr.next_idx + 1
    if num_digits ni ≤ NEXT_IDX_BYTES then
      some { m with manifest_hdr := { m.manifest_hdr with next_idx := ni } }
    else none
  | JobStatus.Outstanding => some m

/-- `ManifestManager::update_num_reboots`: assert (fatally) that the current
`num_reboots` fits `NUM_REBOOTS_BYTES` decimal digits, then increment it.
Note the order: the checked value is the one before the increment. -/
def ManifestManager.update_num_reboots (m : ManifestManager) :
    Option ManifestManager :=
  if num_digits m.manifest_hdr.num_reboots ≤ NUM_REBOOTS_BYTES then
    some { m with manifest_hdr :=
      { m.manifest_hdr with num_reboots := m.manifest_hdr.num_reboots + 1 } }
  else none

/-- The store row index computed inside `ManifestManager::sync`:
`ordering[next_idx - 1]`. In Rust `next_idx` is a `usize`, so with
`next_idx = 0` the subtraction underflows and the statement panics (debug:
overflow panic; release: wrap-around followed by an out-of-bounds panic);
both outcomes are `none` here, as is an out-of-bounds index. -/
def ManifestManager.syncRowId (m : ManifestManager) : Option Nat :=
  match m.manifest_hdr.next_idx with
  | 0 => none
  | k + 1 => m.manifest_hdr.ordering[k]?

/-- `ManifestManager::sync`: sync the header file in place, then update the
store row `ordering[next_idx - 1]` with the current status. -/
def ManifestManager.sync (m : ManifestManager) (file : List Char)
    (store : K2Store) : Option (List Char × K2Store) :=
  match ManifestHeader.sync m.manifest_hdr file with
  | none => none
  | some file' =>
    match m.syncRowId with
    | none => none
    | some id => some (file', store.update_status id m.cur_status)

/-! ### `error::K2Error`, `benchmark::Benchmark`, `lang_impl`, `experiment` -/

/-- `error::K2Error`. -/
inductive K2Error where
  | Unknown
  | ExecutionFailed
  | RerunError
deriving DecidableEq

/-- The outcome of `Command::output()` inside `GenericScriptingVm::invoke`:
either the child process was spawned (with some exit status, which the code
discards), or spawning itself failed. -/
inductive SpawnOutcome where
  | spawned (exitOk : Bool)
  | spawnFailed
deriving DecidableEq

/-- `GenericScriptingVm::invoke`: runs the interpreter on the benchmark and
ignores the captured output entirely; `.expect("failed to execute process")`
panics (`none`) when the process cannot be spawned. -/
def GenericScriptingVm.invoke : SpawnOutcome → Option Unit
  | SpawnOutcome.spawned _ => some ()
  | SpawnOutcome.spawnFailed => none

/-- `Benchmark::run`: invoke the language implementation, then return
`Ok(())`. A spawn failure propagates as the panic from `invoke`. -/
def Benchmark.run (outcome : SpawnOutcome) : Option (Except K2Error Unit) :=
  (GenericScriptingVm.invoke outcome).map (fun _ => Except.ok ())

/-- The `match result` statement of `Experiment::run` classifying a job
outcome into a `JobStatus`. -/
def statusOfResult : Except K2Error Unit → JobStatus
  | Except.ok _ => JobStatus.Done
  | Except.error K2Error.RerunError => JobStatus.Outstanding
  | Except.error _ => JobStatus.Error

/-- The fields of `experiment::Experiment` the run loop reads
(`benchmarks.len()`, `config.pexecs`, the manifest manager, `first_run`,
and the store). -/
structure Experiment where
  benchCount : Nat
  pexecs : Nat
  manifest : ManifestManager
  first_run : Bool
  store : K2Store

/-- The result of one `Experiment::run` invocation: either the schedule was
exhausted (`Ok(results path)`), or one job ran — `rebooted` carries the index
of the executed benchmark and the persisted state at the moment
`util::reboot` replaces the process. -/
inductive RunOutcome where
  | finished
  | rebooted (benchIdx : Nat) (manifest : ManifestManager) (file : List Char)
      (store : K2Store)

/-- `Experiment::run`: run at most one job. `file` is the on-disk header
file, `spawn` the behaviour of the external benchmark process. `none` models
any panic escaping the invocation. -/
def Experiment.run (e : Experiment) (file : List Char) (spawn : SpawnOutcome) :
    Option RunOutcome :=
  match e.manifest.next_job with
  | some job =>
    if e.benchCount = 0 then
      none
    else
      match Benchmark.run spawn with
      | none => none
      | some result =>
        let status := statusOfResult result
        let store := if e.first_run
          then K2Store.create_job_table e.pexecs e.benchCount
          else e.store
        match e.manifest.update_status status with
        | none => none
        | some m1 =>
          match m1.update_num_reboots with
          | none => none
          | some m2 =>
            match m2.sync file store with
            | none => none
            | some (file', store') =>
              some (RunOutcome.rebooted (job % e.benchCount) m2 file' store')
  | none => some RunOutcome.finished

/-! ### Iterated manager operations -/

/-- The operations of `ManifestManager` that mutate its state (`sync` takes
`&self` and never changes the in-memory manager; `next_job` is read-only). -/
inductive ManagerOp where
  | update (status : JobStatus)
  | reboots

def applyOp (m : ManifestManager) : ManagerOp → Option ManifestManager
  | ManagerOp.update status => m.update_status status
  | ManagerOp.reboots => m.update_num_reboots

/-- `n` successive `update_status status` calls (the spec's
`advance_next_idx` iterated, when `status` is terminal). -/
def iterUpdate (status : JobStatus) : Nat → ManifestManager → Option ManifestManager
  | 0, m => some m
  | n + 1, m =>
    match m.update_status status with
    | some m' => iterUpdate status n m'
    | none => none

/-! ### Concrete fixtures for the run-loop and sync-row claims -/

/-- A populated `job` table for a 3-job experiment whose jobs have all been
recorded `Done`. -/
def storeAllDone : K2Store := fun j => if j < 3 then some JobStatus.Done else none

/-- An experiment state over 3 benchmarks, schedule `[2, 0, 1]`, cursor at 0. -/
def exp3 : Experiment :=
  ⟨3, 1, ⟨⟨0, 12, 0, 30, [2, 0, 1]⟩, JobStatus.Outstanding⟩, false, storeAllDone⟩

/-- An experiment state over 3 benchmarks whose next job id is 7. -/
def exp7 : Experiment :=
  ⟨3, 1, ⟨⟨0, 12, 0, 30, [7, 0, 1]⟩, JobStatus.Outstanding⟩, false, storeAllDone⟩

/-! ### Theorems -/

theorem numDigitsAux_eq_log (fuel v : Nat) (hv : 0 < v) (hfuel : v ≤ fuel) :
    numDigitsAux fuel v = Nat.log 10 v + 1 := by
  induction fuel using Nat.strong_induction_on generalizing v with
  | _ fuel ih =>
    match fuel, hfuel with
    | 0, hfuel => exact absurd hfuel (by omega)
    | fuel + 1, hfuel =>
      rw [numDigitsAux, if_neg (Nat.pos_iff_ne_zero.mp hv)]
      by_cases h10 : v < 10
      · have hdiv : v / 10 = 0 := Nat.div_eq_of_lt h10
        have hlog : Nat.log 10 v = 0 := Nat.log_eq_zero_iff.mpr (Or.inl h10)
        rw [hdiv, hlog]
        match fuel with
        | 0 => rfl
        | fuel + 1 => rw [numDigitsAux, if_pos rfl]
      · push_neg at h10
        have hdivpos : 0 < v / 10 := Nat.div_pos h10 (by norm_num)
        have hdivlt : v / 10 < v := Nat.div_lt_self hv (by norm_num)
        have : numDigitsAux fuel (v / 10) = Nat.log 10 (v / 10) + 1 :=
          ih fuel (Nat.lt_succ_self fuel) (v / 10) hdivpos (by omega)
        rw [this, Nat.log_div_base]
        have hone : 1 ≤ Nat.log 10 v := by
          rw [Nat.one_le_iff_ne_zero]
          intro hz
          rcases Nat.log_eq_zero_iff.mp hz with h | h <;> omega
        omega

theorem num_digits_eq_log (v : Nat) (hv : 0 < v) :
    num_digits v = Nat.log 10 v + 1 := by
  rw [num_digits, if_neg (Nat.pos_iff_ne_zero.mp hv)]
  exact numDigitsAux_eq_log v v hv le_rfl

/-- The width guard of the manifest's fixed-width fields: a value's decimal
representation fits in `w` bytes iff the value is below `10 ^ w`. -/
theorem num_digits_le_iff (v w : Nat) (hw : 0 < w) :
    num_digits v ≤ w ↔ v < 10 ^ w := by
  by_cases hv : v = 0
  · subst hv
    simp [num_digits, hw, Nat.pos_pow_of_pos w (by norm_num : (0:Nat) < 10)]
    omega
  · have hvpos : 0 < v := Nat.pos_of_ne_zero hv
    rw [num_digits_eq_log v hvpos, Nat.lt_pow_iff_log_lt (by norm_num) hv]
    omega

theorem num_digits_monotone {a b : Nat} (h : a ≤ b) : num_digits a ≤ num_digits b := by
  by_cases ha : a = 0
  · subst ha
    by_cases hb : b = 0
    · subst hb; exact le_rfl
    · rw [num_digits, if_pos rfl, num_digits_eq_log b (Nat.pos_of_ne_zero hb)]
      omega
  · have hb : b ≠ 0 := by omega
    rw [num_digits_eq_log a (Nat.pos_of_ne_zero ha),
        num_digits_eq_log b (Nat.pos_of_ne_zero hb)]
    have := Nat.log_mono_right (b := 10) h
    omega

theorem toCharsAux_eq (fuel v : Nat) (acc : List Char) (hfuel : v ≤ fuel) :
    toCharsAux fuel v acc = (Nat.digits 10 v).reverse.map Nat.digitChar ++ acc := by
  induction fuel using Nat.strong_induction_on generalizing v acc with
  | _ fuel ih =>
    match fuel with
    | 0 =>
      have : v = 0 := by omega
      subst this
      simp [toCharsAux]
    | fuel + 1 =>
      by_cases hv : v = 0
      · subst hv; simp [toCharsAux]
      · rw [toCharsAux, if_neg hv]
        have hdivlt : v / 10 < v := Nat.div_lt_self (Nat.pos_of_ne_zero hv) (by norm_num)
        rw [ih fuel (Nat.lt_succ_self fuel) (v / 10) _ (by omega)]
        rw [Nat.digits_def' (by norm_num : 1 < 10) (Nat.pos_of_ne_zero hv)]
        simp

theorem natChars_eq (v : Nat) (hv : 0 < v) :
    natChars v = (Nat.digits 10 v).reverse.map Nat.digitChar := by
  rw [natChars, if_neg (Nat.pos_iff_ne_zero.mp hv),
      toCharsAux_eq v v [] le_rfl, List.append_nil]

theorem natChars_length (v : Nat) : (natChars v).length = num_digits v := by
  by_cases hv : v = 0
  · subst hv; rfl
  · have hvpos := Nat.pos_of_ne_zero hv
    rw [natChars_eq v hvpos, num_digits_eq_log v hvpos]
    simp [Nat.digits_len 10 v (by norm_num) hv]

theorem natChars_mem (v : Nat) (c : Char) (hc : c ∈ natChars v) :
    ∃ d, d < 10 ∧ c = Nat.digitChar d := by
  by_cases hv : v = 0
  · subst hv
    rw [show natChars 0 = ['0'] from rfl] at hc
    simp only [List.mem_singleton] at hc
    exact ⟨0, by norm_num, by rw [hc]; rfl⟩
  · rw [natChars_eq v (Nat.pos_of_ne_zero hv)] at hc
    simp only [List.mem_map, List.mem_reverse] at hc
    obtain ⟨d, hd, rfl⟩ := hc
    exact ⟨d, Nat.digits_lt_base (by norm_num) hd, rfl⟩

theorem charDigit_digitChar (d : Nat) (hd : d < 10) :
    charDigit (Nat.digitChar d) = some d := by
  interval_cases d <;> decide

theorem parseNatChars_eq (s : List Char) (h : s ≠ []) :
    parseNatChars s = parseDigitsAux s 0 := by
  rw [parseNatChars, if_neg (by simpa [List.isEmpty_iff] using h)]

theorem parseDigitsAux_digits (ds : List Nat) (acc : Nat)
    (hds : ∀ d ∈ ds, d < 10) :
    parseDigitsAux (ds.map Nat.digitChar) acc =
      some (ds.foldl (fun a d => a * 10 + d) acc) := by
  induction ds generalizing acc with
  | nil => simp [parseDigitsAux]
  | cons d ds ih =>
    simp only [List.map_cons, parseDigitsAux,
      charDigit_digitChar d (hds d (List.mem_cons_self d ds))]
    exact ih _ (fun x hx => hds x (List.mem_cons_of_mem d hx))

theorem foldl_decimal (ds : List Nat) (acc : Nat) :
    ds.foldl (fun a d => a * 10 + d) acc =
      acc * 10 ^ ds.length + Nat.ofDigits 10 ds.reverse := by
  induction ds generalizing acc with
  | nil => simp
  | cons d ds ih =>
    simp only [List.foldl_cons, List.reverse_cons, List.length_cons]
    rw [ih, Nat.ofDigits_append]
    simp [Nat.ofDigits_singleton, Nat.pow_succ]
    ring

theorem ofDigits_replicate_zero (n : Nat) :
    Nat.ofDigits 10 (List.replicate n (0:Nat)) = 0 := by
  induction n with
  | zero => simp [Nat.ofDigits]
  | succ n ihn => rw [List.replicate_succ, Nat.ofDigits_cons, ihn]

theorem parseNatChars_padded (k v : Nat) :
    parseNatChars (List.replicate k '0' ++ natChars v) = some v := by
  have hrepl : List.replicate k '0' = (List.replicate k (0:Nat)).map Nat.digitChar := by
    rw [List.map_replicate]
    rfl
  by_cases hv : v = 0
  · subst hv
    have hlist : List.replicate k '0' ++ natChars 0
        = (List.replicate (k+1) (0:Nat)).map Nat.digitChar := by
      calc List.replicate k '0' ++ natChars 0
          = (List.replicate k (0:Nat)).map Nat.digitChar ++ [Nat.digitChar 0] := by
            rw [hrepl]; rfl
        _ = ((List.replicate k (0:Nat)) ++ [0]).map Nat.digitChar := by
            rw [List.map_append]; rfl
        _ = (List.replicate (k+1) (0:Nat)).map Nat.digitChar := by
            rw [← List.replicate_succ']
    rw [hlist, parseNatChars_eq _ (by simp),
      parseDigitsAux_digits _ _ (fun d hd => by rw [List.eq_of_mem_replicate hd]; norm_num),
      foldl_decimal]
    rw [List.reverse_replicate, ofDigits_replicate_zero]
    simp
  · have hvpos := Nat.pos_of_ne_zero hv
    have hdig : Nat.digits 10 v ≠ [] := Nat.digits_ne_nil_iff_ne_zero.mpr hv
    have hlist : List.replicate k '0' ++ natChars v
        = ((List.replicate k (0:Nat)) ++ (Nat.digits 10 v).reverse).map Nat.digitChar := by
      rw [hrepl, natChars_eq v hvpos, List.map_append]
    rw [hlist, parseNatChars_eq _ (by simp [hdig]), parseDigitsAux_digits _ _ ?hlt]
    case hlt =>
      intro d hd
      rcases List.mem_append.mp hd with h | h
      · rw [List.eq_of_mem_replicate h]; norm_num
      · exact Nat.digits_lt_base (by norm_num) (List.mem_reverse.mp h)
    rw [List.foldl_append, foldl_decimal, foldl_decimal]
    rw [List.reverse_replicate, ofDigits_replicate_zero, List.reverse_reverse,
      Nat.ofDigits_digits]
    simp

theorem parseNatChars_natChars (v : Nat) : parseNatChars (natChars v) = some v := by
  have := parseNatChars_padded 0 v
  simpa using this

theorem format_int_field_length (value width : Nat) (s : List Char)
    (h : format_int_field value width = some s) : s.length = width := by
  rw [format_int_field] at h
  split at h
  · next hle =>
    cases h
    simp [natChars_length]
    omega
  · cases h

theorem format_int_field_parse (value width : Nat) (s : List Char)
    (h : format_int_field value width = some s) : parseNatChars s = some value := by
  rw [format_int_field] at h
  split at h
  · cases h
    exact parseNatChars_padded _ _
  · cases h

theorem format_int_field_mem (value width : Nat) (s : List Char)
    (h : format_int_field value width = some s) (c : Char) (hc : c ∈ s) :
    ∃ d, d < 10 ∧ c = Nat.digitChar d := by
  rw [format_int_field] at h
  split at h
  · cases h
    rcases List.mem_append.mp hc with h | h
    · exact ⟨0, by norm_num, by rw [List.eq_of_mem_replicate h]; rfl⟩
    · exact natChars_mem _ _ h
  · cases h

theorem format_int_field_isSome (value width : Nat) (h : num_digits value ≤ width) :
    format_int_field value width = some (List.replicate (width - num_digits value) '0' ++ natChars value) := by
  rw [format_int_field, if_pos h]

/-- Decimal digit characters are none of the three separator characters of the
manifest header file format. -/
theorem digitChar_not_sep (d : Nat) (hd : d < 10) :
    Nat.digitChar d ≠ '\n' ∧ Nat.digitChar d ≠ '=' ∧ Nat.digitChar d ≠ ',' := by
  interval_cases d <;> decide

/-! ### Parsing a canonically written header file -/

theorem intercalate_pair (x : Char) (a b : List Char) :
    List.intercalate [x] [a, b] = a ++ x :: b := by
  simp [List.intercalate]

theorem intercalate_triple (x : Char) (a b c : List Char) :
    List.intercalate [x] [a, b, c] = a ++ x :: (b ++ x :: c) := by
  simp [List.intercalate]

theorem splitOn_key_value (key value : List Char) (hk : '=' ∉ key)
    (hv : '=' ∉ value) : (key ++ '=' :: value).splitOn '=' = [key, value] := by
  rw [← intercalate_pair]
  exact List.splitOn_intercalate [key, value] '=' (by simp [hk, hv]) (by simp)

theorem splitOn_three_lines (l1 l2 l3 : List Char) (h1 : '\n' ∉ l1)
    (h2 : '\n' ∉ l2) (h3 : '\n' ∉ l3) :
    (l1 ++ '\n' :: (l2 ++ '\n' :: l3)).splitOn '\n' = [l1, l2, l3] := by
  rw [← intercalate_triple]
  exact List.splitOn_intercalate [l1, l2, l3] '\n' (by simp [h1, h2, h3]) (by simp)

theorem parseOrderingValue_map (ord : List Nat) :
    parseOrderingValue (ord.map natChars) = some ord := by
  induction ord with
  | nil => rfl
  | cons v ord ih =>
    simp only [List.map_cons, parseOrderingValue, parseNatChars_natChars, ih]

theorem mem_ordering_str (ord : List Nat) (c : Char)
    (hc : c ∈ ManifestHeader.ordering_str ord) :
    c = ',' ∨ ∃ d, d < 10 ∧ c = Nat.digitChar d := by
  induction ord with
  | nil => cases hc
  | cons v ord ih =>
    cases ord with
    | nil =>
      right
      refine natChars_mem v c ?_
      simpa [ManifestHeader.ordering_str, List.intercalate] using hc
    | cons w ord' =>
      rw [ManifestHeader.ordering_str, List.map_cons,
        show List.intercalate [','] (natChars v :: (w :: ord').map natChars)
          = natChars v ++ [','] ++ List.intercalate [','] ((w :: ord').map natChars) by
          simp [List.intercalate, List.intersperse_cons_cons]] at hc
      rcases List.mem_append.mp hc with h | h
      · rcases List.mem_append.mp h with h' | h'
        · exact Or.inr (natChars_mem v c h')
        · exact Or.inl (List.mem_singleton.mp h')
      · exact ih h

theorem splitOn_ordering_str (ord : List Nat) (hord : ord ≠ []) :
    (ManifestHeader.ordering_str ord).splitOn ',' = ord.map natChars := by
  rw [ManifestHeader.ordering_str]
  refine List.splitOn_intercalate (ord.map natChars) ',' ?_ (by simpa using hord)
  intro l hl hmem
  obtain ⟨v, _, rfl⟩ := List.mem_map.mp hl
  obtain ⟨d, hd, hc⟩ := natChars_mem v ',' hmem
  exact absurd hc.symm (digitChar_not_sep d hd).2.2

theorem parseLine_num_reboots (st : ParseState) (nrs : List Char) (nr : Nat)
    (hparse : parseNatChars nrs = some nr) (hlen : nrs.length = 8)
    (hmem : ∀ c ∈ nrs, ∃ d, d < 10 ∧ c = Nat.digitChar d) :
    parseLine st (NUM_REBOOTS ++ '=' :: nrs) =
      some { st with num_reboots := some (nr, st.offset + 12),
                     offset := st.offset + 21 } := by
  have hveq : '=' ∉ nrs := by
    intro h
    obtain ⟨d, hd, hc⟩ := hmem '=' h
    exact absurd hc.symm (digitChar_not_sep d hd).2.1
  have hkey := splitOn_key_value NUM_REBOOTS nrs (by decide) hveq
  have hlinelen : (NUM_REBOOTS ++ '=' :: nrs).length = 20 := by
    simp [NUM_REBOOTS, hlen]
  have hkeylen : NUM_REBOOTS.length = 11 := by decide
  rw [parseLine, hkey]
  simp only [hparse, hlen, hlinelen, hkeylen]
  simp [NUM_REBOOTS_BYTES, (by decide : ¬(NUM_REBOOTS = ORDERING)), Nat.add_assoc]

theorem parseLine_next_idx (st : ParseState) (nis : List Char) (ni : Nat)
    (hparse : parseNatChars nis = some ni) (hlen : nis.length = 4)
    (hmem : ∀ c ∈ nis, ∃ d, d < 10 ∧ c = Nat.digitChar d) :
    parseLine st (NEXT_IDX ++ '=' :: nis) =
      some { st with next_idx := some (ni, st.offset + 9),
                     offset := st.offset + 14 } := by
  have hveq : '=' ∉ nis := by
    intro h
    obtain ⟨d, hd, hc⟩ := hmem '=' h
    exact absurd hc.symm (digitChar_not_sep d hd).2.1
  have hkey := splitOn_key_value NEXT_IDX nis (by decide) hveq
  have hlinelen : (NEXT_IDX ++ '=' :: nis).length = 13 := by
    simp [NEXT_IDX, hlen]
  have hkeylen : NEXT_IDX.length = 8 := by decide
  rw [parseLine, hkey]
  simp only [hparse, hlen, hlinelen, hkeylen]
  simp [NEXT_IDX_BYTES, (by decide : ¬(NEXT_IDX = ORDERING)),
    (by decide : ¬(NEXT_IDX = NUM_REBOOTS)), Nat.add_assoc]

theorem parseLine_ordering (st : ParseState) (ord : List Nat) (hord : ord ≠ []) :
    parseLine st (ORDERING ++ '=' :: ManifestHeader.ordering_str ord) =
      some { st with ordering := some ord,
                     offset := st.offset
                       + (ORDERING ++ '=' :: ManifestHeader.ordering_str ord).length
                       + 1 } := by
  have hveq : '=' ∉ ManifestHeader.ordering_str ord := by
    intro h
    rcases mem_ordering_str ord '=' h with h' | ⟨d, hd, hc⟩
    · cases h'
    · exact absurd hc.symm (digitChar_not_sep d hd).2.1
  have hkey := splitOn_key_value ORDERING _ (by decide) hveq
  rw [parseLine, hkey]
  simp [splitOn_ordering_str ord hord, parseOrderingValue_map]

theorem mem_line_of_key (key value : List Char) (c : Char)
    (hc : c ∈ key ++ '=' :: value) : c ∈ key ∨ c = '=' ∨ c ∈ value := by
  rcases List.mem_append.mp hc with h | h
  · exact Or.inl h
  · rcases List.mem_cons.mp h with h' | h'
    · exact Or.inr (Or.inl h')
    · exact Or.inr (Or.inr h')

/-- Parsing a file freshly assembled by `ManifestHeader::write` recovers the
written field values, the written ordering, and the canonical field offsets
12 (`num_reboots`) and 30 (`next_idx`). -/
theorem parse_manifestFileContents (nr ni : Nat) (ord : List Nat) (file : List Char)
    (hfile : manifestFileContents nr ni ord = some file) (hord : ord ≠ []) :
    ManifestHeader.parse file = some ⟨nr, 12, ni, 30, ord⟩ := by
  cases hnr : format_int_field nr NUM_REBOOTS_BYTES with
  | none => rw [manifestFileContents, hnr] at hfile; cases hfile
  | some nrs =>
  cases hni : format_int_field ni NEXT_IDX_BYTES with
  | none => rw [manifestFileContents, hnr, hni] at hfile; cases hfile
  | some nis =>
  rw [manifestFileContents, hnr, hni] at hfile
  have hmemr := format_int_field_mem _ _ _ hnr
  have hlenr := format_int_field_length _ _ _ hnr
  have hparser := format_int_field_parse _ _ _ hnr
  have hmemi := format_int_field_mem _ _ _ hni
  have hleni := format_int_field_length _ _ _ hni
  have hparsei := format_int_field_parse _ _ _ hni
  have hfile_eq : file =
      (NUM_REBOOTS ++ '=' :: nrs) ++ '\n' ::
      ((NEXT_IDX ++ '=' :: nis) ++ '\n' ::
      (ORDERING ++ '=' :: ManifestHeader.ordering_str ord)) := by
    have := Option.some.inj hfile
    rw [← this]
    simp
  have hnl1 : '\n' ∉ NUM_REBOOTS ++ '=' :: nrs := by
    intro h
    rcases mem_line_of_key _ _ _ h with h' | h' | h'
    · revert h'; decide
    · cases h'
    · obtain ⟨d, hd, hc⟩ := hmemr '\n' h'
      exact absurd hc.symm (digitChar_not_sep d hd).1
  have hnl2 : '\n' ∉ NEXT_IDX ++ '=' :: nis := by
    intro h
    rcases mem_line_of_key _ _ _ h with h' | h' | h'
    · revert h'; decide
    · cases h'
    · obtain ⟨d, hd, hc⟩ := hmemi '\n' h'
      exact absurd hc.symm (digitChar_not_sep d hd).1
  have hnl3 : '\n' ∉ ORDERING ++ '=' :: ManifestHeader.ordering_str ord := by
    intro h
    rcases mem_line_of_key _ _ _ h with h' | h' | h'
    · revert h'; decide
    · cases h'
    · rcases mem_ordering_str ord '\n' h' with h'' | ⟨d, hd, hc⟩
      · cases h''
      · exact absurd hc.symm (digitChar_not_sep d hd).1
  have hl1 : ∀ st, parseLine st (NUM_REBOOTS ++ '=' :: nrs) =
      some { st with num_reboots := some (nr, st.offset + 12),
                     offset := st.offset + 21 } :=
    fun st => parseLine_num_reboots st nrs nr hparser hlenr hmemr
  have hl2 : ∀ st, parseLine st (NEXT_IDX ++ '=' :: nis) =
      some { st with next_idx := some (ni, st.offset + 9),
                     offset := st.offset + 14 } :=
    fun st => parseLine_next_idx st nis ni hparsei hleni hmemi
  have hl3 : ∀ st, parseLine st (ORDERING ++ '=' :: ManifestHeader.ordering_str ord) =
      some { st with ordering := some ord,
                     offset := st.offset
                       + (ORDERING ++ '=' :: ManifestHeader.ordering_str ord).length
                       + 1 } :=
    fun st => parseLine_ordering st ord hord
  rw [ManifestHeader.parse, hfile_eq, splitOn_three_lines _ _ _ hnl1 hnl2 hnl3]
  simp [List.foldlM, hl1, hl2, hl3, initParseState]

/-! ### In-place patching: `ManifestHeader::sync` on a canonical file -/

theorem writeAt_exact (A x B data : List Char) (hlen : data.length = x.length) :
    writeAt (A ++ x ++ B) A.length data = A ++ data ++ B := by
  rw [writeAt, hlen]
  have htake : (A ++ x ++ B).take A.length = A := by
    rw [List.append_assoc]
    simp
  have hdrop : (A ++ x ++ B).drop (A.length + x.length) = B := by
    rw [List.append_assoc, show A.length + x.length = (A ++ x).length by simp,
      ← List.append_assoc]
    simp
  rw [htake, hdrop, List.append_assoc]

/-- The shape of a canonically written header file, cut at the two patchable
slices: prefix (12 bytes), `num_reboots` value (8 bytes), middle (10 bytes),
`next_idx` value (4 bytes), suffix. -/
theorem manifestFileContents_shape (nr ni : Nat) (ord : List Nat) (f : List Char)
    (hf : manifestFileContents nr ni ord = some f) :
    ∃ nrs nis,
      format_int_field nr NUM_REBOOTS_BYTES = some nrs ∧
      format_int_field ni NEXT_IDX_BYTES = some nis ∧
      f = (NUM_REBOOTS ++ ['=']) ++ nrs ++ (('\n' :: NEXT_IDX) ++ ['=']) ++ nis ++
          ('\n' :: (ORDERING ++ '=' :: ManifestHeader.ordering_str ord)) := by
  cases hnr : format_int_field nr NUM_REBOOTS_BYTES with
  | none => rw [manifestFileContents, hnr] at hf; cases hf
  | some nrs =>
  cases hni : format_int_field ni NEXT_IDX_BYTES with
  | none => rw [manifestFileContents, hnr, hni] at hf; cases hf
  | some nis =>
  rw [manifestFileContents, hnr, hni] at hf
  refine ⟨nrs, nis, rfl, rfl, ?_⟩
  rw [← Option.some.inj hf]
  simp

/-- `sync` on a canonically written file with fitting in-memory values and the
canonical offsets produces exactly the canonically written file for the new
values (same ordering payload). -/
theorem sync_canonical (hdr : ManifestHeader) (nr0 ni0 : Nat) (ord : List Nat)
    (f0 : List Char) (hf0 : manifestFileContents nr0 ni0 ord = some f0)
    (hro : hdr.num_reboots_offset = 12) (hio : hdr.next_idx_offset = 30)
    (hnr : num_digits hdr.num_reboots ≤ NUM_REBOOTS_BYTES)
    (hni : num_digits hdr.next_idx ≤ NEXT_IDX_BYTES) :
    ∃ f1, ManifestHeader.sync hdr f0 = some f1 ∧
      manifestFileContents hdr.num_reboots hdr.next_idx ord = some f1 := by
  obtain ⟨nrs0, nis0, hnr0, hni0, hshape⟩ := manifestFileContents_shape _ _ _ _ hf0
  have hnrs := format_int_field_isSome hdr.num_reboots NUM_REBOOTS_BYTES hnr
  have hnis := format_int_field_isSome hdr.next_idx NEXT_IDX_BYTES hni
  set nrs := List.replicate (NUM_REBOOTS_BYTES - num_digits hdr.num_reboots) '0'
    ++ natChars hdr.num_reboots with hnrs_def
  set nis := List.replicate (NEXT_IDX_BYTES - num_digits hdr.next_idx) '0'
    ++ natChars hdr.next_idx with hnis_def
  have hlnrs : nrs.length = 8 := format_int_field_length _ _ _ hnrs
  have hlnis : nis.length = 4 := format_int_field_length _ _ _ hnis
  have hlnrs0 : nrs0.length = 8 := format_int_field_length _ _ _ hnr0
  have hlnis0 : nis0.length = 4 := format_int_field_length _ _ _ hni0
  rw [ManifestHeader.sync, hnrs, hnis, hro, hio]
  refine ⟨_, rfl, ?_⟩
  have hstep1 : writeAt f0 12 nrs
      = (NUM_REBOOTS ++ ['=']) ++ nrs ++ (('\n' :: NEXT_IDX) ++ ['=']) ++ nis0 ++
        ('\n' :: (ORDERING ++ '=' :: ManifestHeader.ordering_str ord)) := by
    have h12 : (12:Nat) = (NUM_REBOOTS ++ ['=']).length := by decide
    rw [hshape, h12]
    rw [show (NUM_REBOOTS ++ ['=']) ++ nrs0 ++ (('\n' :: NEXT_IDX) ++ ['=']) ++ nis0 ++
          ('\n' :: (ORDERING ++ '=' :: ManifestHeader.ordering_str ord))
        = (NUM_REBOOTS ++ ['=']) ++ nrs0 ++
          ((('\n' :: NEXT_IDX) ++ ['=']) ++ nis0 ++
           ('\n' :: (ORDERING ++ '=' :: ManifestHeader.ordering_str ord))) by
      simp [List.append_assoc]]
    rw [writeAt_exact _ nrs0 _ nrs (by rw [hlnrs, hlnrs0])]
    simp [List.append_assoc]
  rw [hstep1]
  have hstep2 : writeAt
      ((NUM_REBOOTS ++ ['=']) ++ nrs ++ (('\n' :: NEXT_IDX) ++ ['=']) ++ nis0 ++
        ('\n' :: (ORDERING ++ '=' :: ManifestHeader.ordering_str ord))) 30 nis
      = (NUM_REBOOTS ++ ['=']) ++ nrs ++ (('\n' :: NEXT_IDX) ++ ['=']) ++ nis ++
        ('\n' :: (ORDERING ++ '=' :: ManifestHeader.ordering_str ord)) := by
    have h30 : (30:Nat)
        = ((NUM_REBOOTS ++ ['=']) ++ nrs ++ (('\n' :: NEXT_IDX) ++ ['='])).length := by
      simp [hlnrs, NUM_REBOOTS, NEXT_IDX]
    rw [h30]
    rw [show (NUM_REBOOTS ++ ['=']) ++ nrs ++ (('\n' :: NEXT_IDX) ++ ['=']) ++ nis0 ++
          ('\n' :: (ORDERING ++ '=' :: ManifestHeader.ordering_str ord))
        = ((NUM_REBOOTS ++ ['=']) ++ nrs ++ (('\n' :: NEXT_IDX) ++ ['='])) ++ nis0 ++
          ('\n' :: (ORDERING ++ '=' :: ManifestHeader.ordering_str ord)) by
      simp [List.append_assoc]]
    rw [writeAt_exact _ nis0 _ nis (by rw [hlnis, hlnis0])]
  rw [hstep2, manifestFileContents, hnrs, hnis]
  simp [List.append_assoc]

/-- Two canonical header files for the same ordering differ only inside the
two fixed-width value slices (bytes 12-19 and 30-33) and have equal length. -/
theorem canonical_frame (nr0 ni0 nr1 ni1 : Nat) (ord : List Nat)
    (f0 f1 : List Char) (hf0 : manifestFileContents nr0 ni0 ord = some f0)
    (hf1 : manifestFileContents nr1 ni1 ord = some f1) :
    f1.length = f0.length ∧
      ∀ i, i < 12 ∨ (20 ≤ i ∧ i < 30) ∨ 34 ≤ i → f1[i]? = f0[i]? := by
  obtain ⟨x0, y0, hx0, hy0, hs0⟩ := manifestFileContents_shape _ _ _ _ hf0
  obtain ⟨x1, y1, hx1, hy1, hs1⟩ := manifestFileContents_shape _ _ _ _ hf1
  have hlx0 : x0.length = 8 := format_int_field_length _ _ _ hx0
  have hlx1 : x1.length = 8 := format_int_field_length _ _ _ hx1
  have hly0 : y0.length = 4 := format_int_field_length _ _ _ hy0
  have hly1 : y1.length = 4 := format_int_field_length _ _ _ hy1
  have hA : NUM_REBOOTS.length = 11 := by decide
  have hB : NEXT_IDX.length = 8 := by decide
  subst hs0 hs1
  constructor
  · simp [hlx0, hlx1, hly0, hly1]
  · intro i hi
    simp only [List.append_assoc, List.getElem?_append, List.length_append,
      List.length_cons, List.length_singleton, List.length_nil,
      hA, hB, hlx0, hlx1, hly0, hly1]
    split_ifs <;> first | rfl | omega

/-! ### The shuffle produces a permutation -/

theorem set_head_swap_perm : ∀ (t : List Nat) (k x b : Nat),
    t[k]? = some b → (b :: t.set k x).Perm (x :: t)
  | [], k, x, b, h => by simp at h
  | c :: t', 0, x, b, h => by
    simp only [List.getElem?_cons_zero, Option.some.injEq] at h
    subst h
    simp only [List.set_cons_zero]
    exact List.Perm.swap x c t'
  | c :: t', k + 1, x, b, h => by
    simp only [List.getElem?_cons_succ] at h
    simp only [List.set_cons_succ]
    exact (List.Perm.swap c b (t'.set k x)).trans
      (((set_head_swap_perm t' k x b h).cons c).trans (List.Perm.swap x c t'))

theorem listSwap_perm (l : List Nat) (i j : Nat) : (listSwap l i j).Perm l := by
  induction l generalizing i j with
  | nil => simp [listSwap]
  | cons x t ih =>
    cases hi : (x :: t)[i]? with
    | none => simp [listSwap, hi]
    | some a =>
      cases hj : (x :: t)[j]? with
      | none => simp [listSwap, hi, hj]
      | some b =>
        simp only [listSwap, hi, hj]
        match i, j with
        | 0, 0 =>
          simp only [List.getElem?_cons_zero, Option.some.injEq] at hi hj
          subst hi; subst hj
          simp
        | 0, k + 1 =>
          simp only [List.getElem?_cons_zero, Option.some.injEq] at hi
          simp only [List.getElem?_cons_succ] at hj
          subst hi
          simp only [List.set_cons_zero, List.set_cons_succ]
          exact set_head_swap_perm t k x b hj
        | m + 1, 0 =>
          simp only [List.getElem?_cons_succ] at hi
          simp only [List.getElem?_cons_zero, Option.some.injEq] at hj
          subst hj
          simp only [List.set_cons_succ, List.set_cons_zero]
          exact set_head_swap_perm t m x a hi
        | m + 1, k + 1 =>
          simp only [List.getElem?_cons_succ] at hi hj
          simp only [List.set_cons_succ]
          have hswap : listSwap t m k = (t.set m b).set k a := by
            simp only [listSwap, hi, hj]
          exact ((hswap ▸ ih m k)).cons x

theorem shuffleAux_perm (rand : Nat → Nat) :
    ∀ (n : Nat) (l : List Nat), (shuffleAux rand n l).Perm l
  | 0, l => List.Perm.refl l
  | n + 1, l =>
    (shuffleAux_perm rand n _).trans (listSwap_perm l (n + 1) (rand (n + 1) % (n + 2)))

theorem shuffle_perm (l : List Nat) (rand : Nat → Nat) :
    (shuffle l rand).Perm l :=
  shuffleAux_perm rand (l.length - 1) l

/-- `random_ordering num_jobs` is a permutation of `0, ..., num_jobs - 1`,
whatever the random draws. -/
theorem random_ordering_perm (num_jobs : Nat) (rand : Nat → Nat) :
    (ManifestHeader.random_ordering num_jobs rand).Perm (List.range num_jobs) :=
  shuffle_perm (List.range num_jobs) rand

theorem iterUpdate_done (n : Nat) (m : ManifestManager)
    (hfit : num_digits (m.manifest_hdr.next_idx + n) ≤ NEXT_IDX_BYTES) :
    ∃ m', iterUpdate JobStatus.Done n m = some m' ∧
      m'.manifest_hdr.next_idx = m.manifest_hdr.next_idx + n ∧
      m'.manifest_hdr.ordering = m.manifest_hdr.ordering := by
  induction n generalizing m with
  | zero => exact ⟨m, rfl, by omega, rfl⟩
  | succ n ih =>
    have hstep : num_digits (m.manifest_hdr.next_idx + 1) ≤ NEXT_IDX_BYTES :=
      le_trans (num_digits_monotone (by omega)) hfit
    have hupd : m.update_status JobStatus.Done
        = some { m with
                 cur_status := JobStatus.Done
                 manifest_hdr := { m.manifest_hdr with
                                   next_idx := m.manifest_hdr.next_idx + 1 } } := by
      rw [ManifestManager.update_status]
      simp only [if_pos hstep]
    obtain ⟨m', hrun, hidx, hord⟩ := ih
      { m with
        cur_status := JobStatus.Done
        manifest_hdr := { m.manifest_hdr with
                          next_idx := m.manifest_hdr.next_idx + 1 } }
      (by simpa [Nat.add_assoc, Nat.add_comm, Nat.add_left_comm] using hfit)
    refine ⟨m', ?_, by simpa [hidx] using by omega, hord⟩
    rw [iterUpdate, hupd]
    exact hrun

/-- C2: `update_status` advances `next_idx` by exactly 1 on the terminal
statuses `Done` and `Error`, leaves it (and the result of the next
`next_job` call) unchanged on `Outstanding`, and no mutating manager
operation ever decreases `next_idx`. -/
theorem C2_cursor_advance (m : ManifestManager) :
    (∀ m', m.update_status JobStatus.Done = some m' →
        m'.manifest_hdr.next_idx = m.manifest_hdr.next_idx + 1) ∧
    (∀ m', m.update_status JobStatus.Error = some m' →
        m'.manifest_hdr.next_idx = m.manifest_hdr.next_idx + 1) ∧
    (m.update_status JobStatus.Outstanding
        = some { m with cur_status := JobStatus.Outstanding }) ∧
    (∀ m', m.update_status JobStatus.Outstanding = some m' →
        m'.manifest_hdr.next_idx = m.manifest_hdr.next_idx ∧
        m'.next_job = m.next_job) ∧
    (∀ op m', applyOp m op = some m' →
        m.manifest_hdr.next_idx ≤ m'.manifest_hdr.next_idx) := by
  have hout : m.update_status JobStatus.Outstanding
      = some { m with cur_status := JobStatus.Outstanding } := by
    rw [ManifestManager.update_status]
  have hdone : ∀ m', m.update_status JobStatus.Done = some m' →
      m'.manifest_hdr.next_idx = m.manifest_hdr.next_idx + 1 := by
    intro m' h
    rw [ManifestManager.update_status] at h
    simp only at h
    split at h
    · cases h; rfl
    · cases h
  have herr : ∀ m', m.update_status JobStatus.Error = some m' →
      m'.manifest_hdr.next_idx = m.manifest_hdr.next_idx + 1 := by
    intro m' h
    rw [ManifestManager.update_status] at h
    simp only at h
    split at h
    · cases h; rfl
    · cases h
  refine ⟨hdone, herr, hout, ?_, ?_⟩
  · intro m' h
    rw [hout] at h
    cases h
    exact ⟨rfl, rfl⟩
  · intro op m' h
    cases op with
    | update status =>
      cases status with
      | Outstanding =>
        rw [show applyOp m (ManagerOp.update JobStatus.Outstanding)
            = m.update_status JobStatus.Outstanding from rfl, hout] at h
        cases h
        exact le_rfl
      | Done =>
        have := hdone m' h
        omega
      | Error =>
        have := herr m' h
        omega
    | reboots =>
      rw [show applyOp m ManagerOp.reboots = m.update_num_reboots from rfl,
        ManifestManager.update_num_reboots] at h
      split at h
      · cases h; exact le_rfl
      · cases h

theorem C2_cursor_advance_witness :
    (ManifestManager.update_status ⟨⟨0, 12, 0, 30, [2, 0, 1]⟩, JobStatus.Outstanding⟩
        JobStatus.Done
      = some ⟨⟨0, 12, 1, 30, [2, 0, 1]⟩, JobStatus.Done⟩) ∧
    (⟨⟨0, 12, 1, 30, [2, 0, 1]⟩, JobStatus.Done⟩ : ManifestManager).manifest_hdr.next_idx
      = 0 + 1 :=
  ⟨by decide,
   (C2_cursor_advance ⟨⟨0, 12, 0, 30, [2, 0, 1]⟩, JobStatus.Outstanding⟩).1
     ⟨⟨0, 12, 1, 30, [2, 0, 1]⟩, JobStatus.Done⟩ (by decide)⟩

/-- C4: with `num_jobs` the length of the schedule (`ordering.len()`),
`next_job` returns `Some(ordering[next_idx])` whenever `next_idx < num_jobs`
and `None` when `next_idx = num_jobs`; and from a fresh cursor
(`next_idx = 0`), after `num_jobs` terminal-status advances `next_job`
returns `None`. -/
theorem C4_next_job_exhaustion (m : ManifestManager) :
    (∀ h : m.manifest_hdr.next_idx < m.manifest_hdr.ordering.length,
      m.next_job = some (m.manifest_hdr.ordering.get
        ⟨m.manifest_hdr.next_idx, h⟩)) ∧
    (m.manifest_hdr.next_idx = m.manifest_hdr.ordering.length →
      m.next_job = none) ∧
    (m.manifest_hdr.next_idx = 0 →
      num_digits m.manifest_hdr.ordering.length ≤ NEXT_IDX_BYTES →
      ∃ m', iterUpdate JobStatus.Done m.manifest_hdr.ordering.length m = some m' ∧
        m'.next_job = none) := by
  refine ⟨?_, ?_, ?_⟩
  · intro h
    rw [ManifestManager.next_job, dif_pos h]
  · intro h
    rw [ManifestManager.next_job, dif_neg (by omega)]
  · intro hzero hfit
    obtain ⟨m', hrun, hidx, hord⟩ :=
      iterUpdate_done m.manifest_hdr.ordering.length m (by rw [hzero]; simpa using hfit)
    refine ⟨m', hrun, ?_⟩
    rw [ManifestManager.next_job, dif_neg (by rw [hidx, hord, hzero]; omega)]

theorem C4_next_job_exhaustion_witness :
    (0:Nat) = 0 ∧
    num_digits ([2, 0, 1] : List Nat).length ≤ NEXT_IDX_BYTES ∧
    ∃ m', iterUpdate JobStatus.Done 3 ⟨⟨0, 12, 0, 30, [2, 0, 1]⟩, JobStatus.Outstanding⟩
        = some m' ∧ m'.next_job = none :=
  ⟨rfl, by decide,
   (C4_next_job_exhaustion ⟨⟨0, 12, 0, 30, [2, 0, 1]⟩, JobStatus.Outstanding⟩).2.2
     rfl (by decide)⟩

/-- C6 (counterexample): with `num_reboots = 99999999` (exactly 8 digits),
`update_num_reboots` succeeds — no fatal check fires at this increment —
although the incremented value `100000000` no longer fits the 8-byte width:
the overflow of `num_reboots` is not detected at the increment that creates
it (the check inspects the pre-increment value). -/
theorem C6_counterexample :
    ManifestManager.update_num_reboots
        ⟨⟨99999999, 12, 0, 30, [0]⟩, JobStatus.Outstanding⟩
      = some ⟨⟨100000000, 12, 0, 30, [0]⟩, JobStatus.Outstanding⟩
    ∧ ¬ num_digits 100000000 ≤ NUM_REBOOTS_BYTES := by
  constructor
  · decide
  · decide

/-- C6 (amended): `update_status` on a terminal status increments `next_idx`
and fatally checks that the *new* value fits `NEXT_IDX_BYTES`, exactly as
claimed; `update_num_reboots` increments `num_reboots` but fatally checks the
*old* value, so the width of `num_reboots` is enforced one increment late
(every successful call still guarantees the pre-increment value fits, and the
panic fires iff the checked value overflows its width). -/
theorem C6_width_checks (m : ManifestManager) :
    (∀ m', m.update_status JobStatus.Done = some m' →
        m'.manifest_hdr.next_idx = m.manifest_hdr.next_idx + 1 ∧
        num_digits m'.manifest_hdr.next_idx ≤ NEXT_IDX_BYTES) ∧
    (∀ m', m.update_status JobStatus.Error = some m' →
        m'.manifest_hdr.next_idx = m.manifest_hdr.next_idx + 1 ∧
        num_digits m'.manifest_hdr.next_idx ≤ NEXT_IDX_BYTES) ∧
    (m.update_status JobStatus.Done = none ↔
        ¬ num_digits (m.manifest_hdr.next_idx + 1) ≤ NEXT_IDX_BYTES) ∧
    (m.update_status JobStatus.Error = none ↔
        ¬ num_digits (m.manifest_hdr.next_idx + 1) ≤ NEXT_IDX_BYTES) ∧
    (∀ m', m.update_num_reboots = some m' →
        m'.manifest_hdr.num_reboots = m.manifest_hdr.num_reboots + 1 ∧
        num_digits m.manifest_hdr.num_reboots ≤ NUM_REBOOTS_BYTES) ∧
    (m.update_num_reboots = none ↔
        ¬ num_digits m.manifest_hdr.num_reboots ≤ NUM_REBOOTS_BYTES) := by
  have hterm : ∀ s, s = JobStatus.Done ∨ s = JobStatus.Error →
      (∀ m', m.update_status s = some m' →
        m'.manifest_hdr.next_idx = m.manifest_hdr.next_idx + 1 ∧
        num_digits m'.manifest_hdr.next_idx ≤ NEXT_IDX_BYTES) ∧
      (m.update_status s = none ↔
        ¬ num_digits (m.manifest_hdr.next_idx + 1) ≤ NEXT_IDX_BYTES) := by
    intro s hs
    constructor
    · intro m' h
      rcases hs with rfl | rfl <;>
      · rw [ManifestManager.update_status] at h
        simp only at h
        split at h
        · cases h
          constructor
          · rfl
          · assumption
        · cases h
    · rcases hs with rfl | rfl <;>
      · rw [ManifestManager.update_status]
        simp only
        split
        · simp_all
        · simp_all
  refine ⟨(hterm _ (Or.inl rfl)).1, (hterm _ (Or.inr rfl)).1,
    (hterm _ (Or.inl rfl)).2, (hterm _ (Or.inr rfl)).2, ?_, ?_⟩
  · intro m' h
    rw [ManifestManager.update_num_reboots] at h
    split at h
    · cases h
      constructor
      · rfl
      · assumption
    · cases h
  · rw [ManifestManager.update_num_reboots]
    split
    · simp_all
    · simp_all

theorem C6_width_checks_witness :
    ∃ m', ManifestManager.update_num_reboots
        ⟨⟨7, 12, 0, 30, [0]⟩, JobStatus.Outstanding⟩ = some m' ∧
      m'.manifest_hdr.num_reboots = 7 + 1 ∧
      num_digits 7 ≤ NUM_REBOOTS_BYTES :=
  ⟨⟨⟨8, 12, 0, 30, [0]⟩, JobStatus.Outstanding⟩, by decide,
   ((C6_width_checks ⟨⟨7, 12, 0, 30, [0]⟩, JobStatus.Outstanding⟩).2.2.2.2.1
     ⟨⟨8, 12, 0, 30, [0]⟩, JobStatus.Outstanding⟩ (by decide)).1,
   ((C6_width_checks ⟨⟨7, 12, 0, 30, [0]⟩, JobStatus.Outstanding⟩).2.2.2.2.1
     ⟨⟨8, 12, 0, 30, [0]⟩, JobStatus.Outstanding⟩ (by decide)).2⟩

/-- C7: for `num_jobs > 0`, creating a fresh header (no file on disk) yields
a header whose `ordering` is a permutation of `0..num_jobs`: it has length
`num_jobs` and every job id below `num_jobs` occurs in it exactly once —
whatever the random draws of the shuffle. -/
theorem C7_fresh_ordering_permutation (num_jobs : Nat) (rand : Nat → Nat)
    (hpos : 0 < num_jobs) :
    ∃ hdr file,
      ManifestHeader.new none num_jobs rand = (some file, some hdr) ∧
      hdr.ordering.length = num_jobs ∧
      (∀ j, j < num_jobs → hdr.ordering.count j = 1) ∧
      hdr.ordering.Perm (List.range num_jobs) := by
  have hperm := random_ordering_perm num_jobs rand
  have hlen : (ManifestHeader.random_ordering num_jobs rand).length = num_jobs := by
    rw [hperm.length_eq, List.length_range]
  have hord_ne : ManifestHeader.random_ordering num_jobs rand ≠ [] := by
    intro h
    rw [h] at hlen
    simp at hlen
    omega
  have hcontents : manifestFileContents 0 0
      (ManifestHeader.random_ordering num_jobs rand)
      = some (NUM_REBOOTS ++ '=' ::
          ((List.replicate (NUM_REBOOTS_BYTES - num_digits 0) '0' ++ natChars 0) ++ '\n' ::
          (NEXT_IDX ++ '=' ::
          ((List.replicate (NEXT_IDX_BYTES - num_digits 0) '0' ++ natChars 0) ++ '\n' ::
          (ORDERING ++ '=' :: ManifestHeader.ordering_str
            (ManifestHeader.random_ordering num_jobs rand)))))) := by
    rw [manifestFileContents, format_int_field_isSome 0 _ (by decide),
      format_int_field_isSome 0 _ (by decide)]
  obtain ⟨c, hc⟩ : ∃ c, manifestFileContents 0 0
      (ManifestHeader.random_ordering num_jobs rand) = some c := ⟨_, hcontents⟩
  have hparse := parse_manifestFileContents 0 0
    (ManifestHeader.random_ordering num_jobs rand) c hc hord_ne
  refine ⟨⟨0, 12, 0, 30, ManifestHeader.random_ordering num_jobs rand⟩, c,
    ?_, hlen, ?_, hperm⟩
  · rw [ManifestHeader.new, hc]
    simp [hparse]
  · intro j hj
    rw [hperm.count_eq]
    exact List.count_eq_one_of_mem (List.nodup_range num_jobs)
      (List.mem_range.mpr hj)

theorem C7_fresh_ordering_permutation_witness :
    0 < 3 ∧
    ∃ hdr file,
      ManifestHeader.new none 3 (fun _ => 0) = (some file, some hdr) ∧
      hdr.ordering.length = 3 ∧
      (∀ j, j < 3 → hdr.ordering.count j = 1) ∧
      hdr.ordering.Perm (List.range 3) :=
  ⟨by decide, C7_fresh_ordering_permutation 3 (fun _ => 0) (by decide)⟩

/-- C10: opening a fresh manifest for `num_jobs = 0` writes a header file
whose `ordering` line carries the empty value, and the mandatory re-parse
then panics (the empty value fails to parse as a job id), so no header is
returned — the file, however, is durably on disk. -/
theorem C10_zero_jobs_panics (rand : Nat → Nat) :
    ManifestHeader.new none 0 rand =
      (some ("num_reboots=00000000\nnext_idx=0000\nordering=".data), none) := rfl

/-- C5: take any header parsed from a canonically written file (so its
recorded offsets are the actual field offsets), let its in-memory
`num_reboots`/`next_idx` be anything that fits the configured widths; then
`sync()` succeeds and a fresh re-parse of the patched file yields exactly the
in-memory values prior to sync. -/
theorem C5_sync_parse_roundtrip (hdr hdr0 : ManifestHeader) (nr0 ni0 : Nat)
    (ord : List Nat) (file0 : List Char)
    (hfile0 : manifestFileContents nr0 ni0 ord = some file0)
    (hord : ord ≠ [])
    (hparse0 : ManifestHeader.parse file0 = some hdr0)
    (hro : hdr.num_reboots_offset = hdr0.num_reboots_offset)
    (hio : hdr.next_idx_offset = hdr0.next_idx_offset)
    (hnr : num_digits hdr.num_reboots ≤ NUM_REBOOTS_BYTES)
    (hni : num_digits hdr.next_idx ≤ NEXT_IDX_BYTES) :
    ∃ file1, ManifestHeader.sync hdr file0 = some file1 ∧
      ∃ hdr1, ManifestHeader.parse file1 = some hdr1 ∧
        hdr1.num_reboots = hdr.num_reboots ∧
        hdr1.next_idx = hdr.next_idx ∧
        hdr1.ordering = ord := by
  have hcanon := parse_manifestFileContents nr0 ni0 ord file0 hfile0 hord
  have hhdr0 : hdr0 = ⟨nr0, 12, ni0, 30, ord⟩ :=
    Option.some.inj (hparse0.symm.trans hcanon)
  obtain ⟨f1, hsync, hf1⟩ := sync_canonical hdr nr0 ni0 ord file0 hfile0
    (by rw [hro, hhdr0]) (by rw [hio, hhdr0]) hnr hni
  exact ⟨f1, hsync,
    ⟨_, parse_manifestFileContents _ _ ord f1 hf1 hord, rfl, rfl, rfl⟩⟩

theorem C5_sync_parse_roundtrip_witness :
    ∃ file1,
      ManifestHeader.sync ⟨5, 12, 2, 30, [2, 0, 1]⟩
        ("num_reboots=00000000\nnext_idx=0000\nordering=2,0,1".data)
        = some file1 ∧
      ∃ hdr1, ManifestHeader.parse file1 = some hdr1 ∧
        hdr1.num_reboots = 5 ∧ hdr1.next_idx = 2 ∧ hdr1.ordering = [2, 0, 1] :=
  C5_sync_parse_roundtrip ⟨5, 12, 2, 30, [2, 0, 1]⟩ ⟨0, 12, 0, 30, [2, 0, 1]⟩
    0 0 [2, 0, 1] ("num_reboots=00000000\nnext_idx=0000\nordering=2,0,1".data)
    (by decide) (by decide) (by decide) rfl rfl (by decide) (by decide)

/-- C8: (re-open) opening an existing header file performs no write at all —
the disk is returned unchanged and the header, when parsing succeeds, is
exactly the parse of the existing bytes (in particular the `ordering`
payload is never regenerated); (frame) `sync` on a canonically written file
overwrites only the `NUM_REBOOTS_BYTES`-wide slice at the recorded
`num_reboots` offset and the `NEXT_IDX_BYTES`-wide slice at the recorded
`next_idx` offset: every byte outside those two slices, and the file length,
are unchanged. -/
theorem C8_reopen_preserves_and_sync_frame :
    (∀ (f : List Char) (num_jobs : Nat) (rand : Nat → Nat),
      (ManifestHeader.new (some f) num_jobs rand).1 = some f ∧
      ∀ hdr, (ManifestHeader.new (some f) num_jobs rand).2 = some hdr →
        ManifestHeader.parse f = some hdr) ∧
    (∀ (hdr : ManifestHeader) (nr0 ni0 : Nat) (ord : List Nat) (file0 : List Char),
      manifestFileContents nr0 ni0 ord = some file0 →
      hdr.num_reboots_offset = 12 → hdr.next_idx_offset = 30 →
      num_digits hdr.num_reboots ≤ NUM_REBOOTS_BYTES →
      num_digits hdr.next_idx ≤ NEXT_IDX_BYTES →
      ∃ file1, ManifestHeader.sync hdr file0 = some file1 ∧
        file1.length = file0.length ∧
        ∀ i, (i < hdr.num_reboots_offset
            ∨ (hdr.num_reboots_offset + NUM_REBOOTS_BYTES ≤ i ∧ i < hdr.next_idx_offset)
            ∨ hdr.next_idx_offset + NEXT_IDX_BYTES ≤ i) →
          file1[i]? = file0[i]?) := by
  constructor
  · intro f num_jobs rand
    constructor
    · rw [ManifestHeader.new]
    · intro hdr h
      rw [ManifestHeader.new] at h
      exact h
  · intro hdr nr0 ni0 ord file0 hfile0 hro hio hnr hni
    obtain ⟨f1, hsync, hf1⟩ :=
      sync_canonical hdr nr0 ni0 ord file0 hfile0 hro hio hnr hni
    obtain ⟨hlen, hframe⟩ :=
      canonical_frame nr0 ni0 hdr.num_reboots hdr.next_idx ord file0 f1 hfile0 hf1
    refine ⟨f1, hsync, hlen, ?_⟩
    intro i hi
    refine hframe i ?_
    rw [hro, hio] at hi
    rcases hi with h | h | h
    · exact Or.inl h
    · exact Or.inr (Or.inl (by revert h; rw [show NUM_REBOOTS_BYTES = 8 from rfl]; omega))
    · exact Or.inr (Or.inr (by revert h; rw [show NEXT_IDX_BYTES = 4 from rfl]; omega))

theorem C8_reopen_preserves_and_sync_frame_witness :
    ((ManifestHeader.new
        (some ("num_reboots=00000000\nnext_idx=0000\nordering=2,0,1".data))
        3 (fun _ => 0)).1
      = some ("num_reboots=00000000\nnext_idx=0000\nordering=2,0,1".data)) ∧
    (∃ file1,
      ManifestHeader.sync ⟨5, 12, 2, 30, [2, 0, 1]⟩
        ("num_reboots=00000000\nnext_idx=0000\nordering=2,0,1".data)
        = some file1 ∧
      file1.length
        = ("num_reboots=00000000\nnext_idx=0000\nordering=2,0,1".data).length ∧
      ∀ i, (i < 12 ∨ (12 + NUM_REBOOTS_BYTES ≤ i ∧ i < 30) ∨ 30 + NEXT_IDX_BYTES ≤ i) →
        file1[i]? = ("num_reboots=00000000\nnext_idx=0000\nordering=2,0,1".data)[i]?) :=
  ⟨(C8_reopen_preserves_and_sync_frame.1
      ("num_reboots=00000000\nnext_idx=0000\nordering=2,0,1".data) 3 (fun _ => 0)).1,
   C8_reopen_preserves_and_sync_frame.2 ⟨5, 12, 2, 30, [2, 0, 1]⟩ 0 0 [2, 0, 1]
     ("num_reboots=00000000\nnext_idx=0000\nordering=2,0,1".data)
     (by decide) rfl rfl (by decide) (by decide)⟩

/-- C1 (bug): the store row updated by `ManifestManager::sync` is
`ordering[next_idx - 1]`. When the pending outcome is `Outstanding` the
cursor was not advanced, so with `next_idx = 0` (first job asking to be
rerun) the `usize` subtraction underflows and `sync` panics; with
`next_idx = 1` the row written is `ordering[0] = 2` — the previously
completed job — while the job whose outcome is pending is
`next_job = ordering[1] = 0`, whose row is left untouched. Only for a
terminal status (cursor already advanced past the executed job) does the
row match the executed job. -/
theorem C1_sync_writes_wrong_row_for_outstanding :
    (ManifestManager.sync ⟨⟨0, 12, 0, 30, [2, 0, 1]⟩, JobStatus.Outstanding⟩
        ("num_reboots=00000000\nnext_idx=0000\nordering=2,0,1".data)
        storeAllDone = none) ∧
    (ManifestManager.next_job ⟨⟨0, 12, 1, 30, [2, 0, 1]⟩, JobStatus.Outstanding⟩
        = some 0) ∧
    (ManifestManager.syncRowId ⟨⟨0, 12, 1, 30, [2, 0, 1]⟩, JobStatus.Outstanding⟩
        = some 2) ∧
    (∃ p, ManifestManager.sync ⟨⟨0, 12, 1, 30, [2, 0, 1]⟩, JobStatus.Outstanding⟩
        ("num_reboots=00000000\nnext_idx=0000\nordering=2,0,1".data)
        storeAllDone = some p ∧
      p.2 2 = some JobStatus.Outstanding ∧
      p.2 0 = some JobStatus.Done) ∧
    (ManifestManager.syncRowId ⟨⟨0, 12, 1, 30, [2, 0, 1]⟩, JobStatus.Done⟩
        = some 2) :=
  ⟨rfl, rfl, rfl, ⟨_, rfl, rfl, rfl⟩, rfl⟩

/-- C3 (bug): the `match result` in `Experiment::run` does map `Ok` to
`Done`, `RerunError` to `Outstanding` and every other `K2Error` to `Error` —
but a failure of the benchmark's external process is not among the outcomes
that reach it: `GenericScriptingVm::invoke` panics on a spawn failure
(`K2Error::ExecutionFailed` is never constructed), so that job-execution
failure escapes before `update_status`/`update_num_reboots`/`sync` run,
while a successful spawn does reach full persistence. -/
theorem C3_spawn_failure_escapes_before_persistence :
    (statusOfResult (Except.ok ()) = JobStatus.Done ∧
     statusOfResult (Except.error K2Error.RerunError) = JobStatus.Outstanding ∧
     statusOfResult (Except.error K2Error.Unknown) = JobStatus.Error ∧
     statusOfResult (Except.error K2Error.ExecutionFailed) = JobStatus.Error) ∧
    (Benchmark.run SpawnOutcome.spawnFailed = none) ∧
    (Experiment.run exp3
        ("num_reboots=00000000\nnext_idx=0000\nordering=2,0,1".data)
        SpawnOutcome.spawnFailed = none) ∧
    (∃ m f s, Experiment.run exp3
        ("num_reboots=00000000\nnext_idx=0000\nordering=2,0,1".data)
        (SpawnOutcome.spawned true) = some (RunOutcome.rebooted 2 m f s)) :=
  ⟨⟨rfl, rfl, rfl, rfl⟩, rfl, rfl, ⟨_, _, _, rfl⟩⟩

/-- C9: whenever one `Experiment::run` invocation executes a job `j` (ending
in the reboot that follows a persisted iteration), the benchmark it invoked
is the one at index `j mod benchmark_count`. -/
theorem C9_benchmark_index (e : Experiment) (file : List Char)
    (spawn : SpawnOutcome) (bi : Nat) (m : ManifestManager) (f : List Char)
    (s : K2Store) (j : Nat)
    (hj : e.manifest.next_job = some j)
    (hrun : Experiment.run e file spawn = some (RunOutcome.rebooted bi m f s)) :
    bi = j % e.benchCount := by
  simp only [Experiment.run, hj] at hrun
  split at hrun
  · cases hrun
  · split at hrun
    · cases hrun
    · split at hrun
      · cases hrun
      · split at hrun
        · cases hrun
        · split at hrun
          · cases hrun
          · simp only [Option.some.injEq, RunOutcome.rebooted.injEq] at hrun
            exact hrun.1.symm

theorem C9_benchmark_index_witness : (1 : Nat) = 7 % 3 :=
  C9_benchmark_index exp7
    ("num_reboots=00000000\nnext_idx=0000\nordering=7,0,1".data)
    (SpawnOutcome.spawned true) 1 _ _ _ 7 rfl rfl
